import Mathlib

/-!
# Note creation (`model/note/note.go`)

A shallow embedding of the creation path of a note: the `Document` record, the
derivation of the file name, the file record built from a document, the
resolution of the notes folder and the write of the file under the notes lock.

Collaborators of the package (the lock, the schema engine, the index, the
storage layer, the logger) are not part of the file under study.  They are
represented by a `World`: one field for each call the code makes, giving the
outcome of that call.  Every function of the package that calls a collaborator
returns, next to its result, the list of calls it made, in order.

Go strings are embedded as Lean strings, `[]byte` values as lists of bytes, a
returned `error` as `Option Error` (`none` is `nil`) and a `(value, error)`
pair as `Except Error value`.
-/

namespace Note

/-! ## Strings -/

/-- Whether `p` occurs at the start of `s` (`strings.HasPrefix` on characters). -/
def startsWith {α : Type} [DecidableEq α] : List α → List α → Bool
  | [], _ => true
  | _ :: _, [] => false
  | a :: p, b :: s => if a = b then startsWith p s else false

/-- The loop of `strings.Replace` for a non-empty `old` and no limit on the
number of replacements: the input is scanned from left to right, each
occurrence of `old` found is replaced by `new` and the scan resumes right after
it.  `skip` counts the elements of the current occurrence still to be dropped. -/
def replaceFrom {α : Type} [DecidableEq α] (old new : List α) : List α → Nat → List α
  | [], _ => []
  | _ :: cs, skip + 1 => replaceFrom old new cs skip
  | c :: cs, 0 =>
    if startsWith old (c :: cs) then new ++ replaceFrom old new cs (old.length - 1)
    else c :: replaceFrom old new cs 0

/-- The case of an empty `old` in `strings.Replace`: `new` is inserted before
every character and at the end. -/
def replaceEmpty {α : Type} (new : List α) : List α → List α
  | [] => new
  | c :: cs => new ++ c :: replaceEmpty new cs

/-- Go `strings.ReplaceAll(s, old, new)`. -/
def ReplaceAll (s old new : String) : String :=
  if old = new then s
  else if old.data = [] then ⟨replaceEmpty new.data s.data⟩
  else ⟨replaceFrom old.data new.data s.data 0⟩

/-! ## Data model -/

/-- A `[]byte` value. -/
abbrev Bytes := List UInt8

/-- The type `Document` of the package: the note in memory. -/
structure Document where
  DocID : String
  DocRev : String
  Title : String
  DirID : String
  Revision : Int
  Schema : Bytes
  Content : Bytes
  deriving DecidableEq

/-- The errors a call can return.  `ErrInvalidSchema` is the error value of the
package; `couch status` is an error of the document store, with its HTTP
status; `failure msg` is any other error. -/
inductive Error where
  | ErrInvalidSchema
  | couch (status : Nat)
  | failure (msg : String)
  deriving DecidableEq

/-- The type `couchdb.DocReference`. -/
structure DocReference where
  Type_ : String
  ID : String
  deriving DecidableEq

/-- The type `couchdb.ViewRequest`, with the fields the package sets. -/
structure ViewRequest where
  StartKey : List String
  EndKey : List String
  IncludeDocs : Bool
  deriving DecidableEq

/-- A row of a `couchdb.ViewResponse`. -/
structure ViewRow where
  ID : String
  deriving DecidableEq

/-- The type `couchdb.ViewResponse`. -/
structure ViewResponse where
  Rows : List ViewRow
  deriving DecidableEq

/-- Modelled from the spec: the type `vfs.CozyMetadata` and its constructor
`vfs.NewCozyMetadata` are declared outside this file; the creation stamp
records the origin URL of the instance. -/
structure CozyMetadata where
  CreatedOn : String
  deriving DecidableEq

/-- Modelled from the spec: `vfs.NewCozyMetadata(url)`, the stamp of creation
provenance. -/
def NewCozyMetadata (url : String) : CozyMetadata := { CreatedOn := url }

/-- Modelled from the spec: the type `vfs.DirDoc` is declared outside this
file; a folder has an identifier, a path, the cross-reference tags attached to
it and a creation stamp. -/
structure DirDoc where
  DocID : String
  Fullpath : String
  ReferencedBy : List DocReference
  CozyMetadata : Option CozyMetadata
  deriving DecidableEq

/-- The method `ID` of a folder. -/
def DirDoc.ID (dir : DirDoc) : String := dir.DocID

/-- Modelled from the spec: `DirDoc.AddReferencedBy` is declared outside this
file; it attaches the cross-reference tag to the folder. -/
def DirDoc.AddReferencedBy (dir : DirDoc) (ref : DocReference) : DirDoc :=
  { dir with ReferencedBy := dir.ReferencedBy ++ [ref] }

/-- The method `Clone` of a folder: a copy. -/
def DirDoc.Clone (dir : DirDoc) : DirDoc := dir

/-- A value of the map returned by `metadata`. -/
inductive MetaValue where
  | str (s : String)
  | raw (b : Bytes)
  | int (n : Int)
  deriving DecidableEq

/-- A `map[string]interface{}` with its entries listed. -/
abbrev Metadata := List (String × MetaValue)

/-- Modelled from the spec: the type `vfs.FileDoc` is declared outside this
file; the file record carries the arguments of `vfs.NewFileDoc`, the custom
metadata and the creation stamp. -/
structure FileDoc where
  DocName : String
  DirID : String
  ByteSize : Int
  MD5Sum : Option Bytes
  Mime : String
  Class : String
  CreatedAt : Nat
  Executable : Bool
  Trashed : Bool
  Tags : List String
  Metadata : Metadata
  CozyMetadata : Option CozyMetadata
  deriving DecidableEq

/-- A call to a collaborator, as recorded in the trace of an execution. -/
inductive Event where
  | Lock
  | Unlock
  | Log (format : String) (err : Error)
  | Unmarshal (schema : Bytes)
  | NewSchema
  | SchemaNode (name : String)
  | NodeString
  | ExecView (req : ViewRequest)
  | DirByID (id : String)
  | CreateDir (dir : DirDoc)
  | DirByPath (path : String)
  | UpdateDirDoc (olddoc newdoc : DirDoc)
  | CreateFile (doc : FileDoc)
  | Write (content : Bytes)
  | Close
  deriving DecidableEq

/-- The collaborators of the package, each given by the outcome of the calls
the code makes to it.  The types of the schema engine are fields as well.
`CreateDir` returns the folder as the storage layer leaves it (the call
receives a pointer) next to its error.  `checkFileName` is the validation made
by `vfs.NewFileDoc`, and `Now` the value of `time.Now()`. -/
structure World where
  SchemaSpec : Type
  Schema : Type
  Node : Type
  Lock : Option Error
  Unmarshal : Bytes → Except Error SchemaSpec
  NewSchema : SchemaSpec → Except Error Schema
  TopNode : Schema → String
  SchemaNode : Schema → String → Except Error Node
  NodeString : Node → Bytes
  Apps : String
  NotesSlug : String
  MaxString : String
  RootDirID : String
  ExecView : ViewRequest → Except Error ViewResponse
  DirByID : String → Except Error DirDoc
  Translate : String → String
  PageURL : String → String
  NewDirDocWithPath : String → String → String → Except Error DirDoc
  CreateDir : DirDoc → DirDoc × Option Error
  IsConflictError : Error → Bool
  DirByPath : String → Except Error DirDoc
  UpdateDirDoc : DirDoc → DirDoc → Option Error
  checkFileName : String → Option Error
  Now : Nat
  CreateFile : FileDoc → Option Error
  Write : Bytes → Option Error
  Close : Option Error

/-- Modelled from the spec: `vfs.NewFileDoc` is declared outside this file; it
validates the name and builds the file record from its arguments. -/
def NewFileDoc (w : World) (name dirID : String) (size : Int) (md5Sum : Option Bytes)
    (mime cls : String) (cdate : Nat) (executable trashed : Bool) (tags : List String) :
    Except Error FileDoc :=
  match w.checkFileName name with
  | some err => .error err
  | none =>
    .ok { DocName := name, DirID := dirID, ByteSize := size, MD5Sum := md5Sum,
          Mime := mime, Class := cls, CreatedAt := cdate, Executable := executable,
          Trashed := trashed, Tags := tags, Metadata := [], CozyMetadata := none }

/-! ## The functions of the package -/

/-- The method `filename`: the name of the file, and the document after the
call (the method assigns the title when it is empty). -/
def Document.filename (d : Document) : String × Document :=
  let d := if d.Title = "" then { d with Title := "New note" } else d
  let name := ReplaceAll d.Title "/" "-"
  (name ++ ".cozy-note", d)

/-- The method `metadata`. -/
def Document.metadata (d : Document) : Metadata :=
  [("title", .str d.Title),
   ("content", .raw d.Content),
   ("revision", .int d.Revision),
   ("schema", .raw d.Schema)]

/-- The method `getInitialContent`: the content bytes or the error, and the
calls made. -/
def Document.getInitialContent (w : World) (d : Document) : Except Error Bytes × List Event :=
  match w.Unmarshal d.Schema with
  | .error err =>
    (.error .ErrInvalidSchema,
      [.Unmarshal d.Schema, .Log "Cannot read the schema: %s" err])
  | .ok spec =>
    match w.NewSchema spec with
    | .error err =>
      (.error .ErrInvalidSchema,
        [.Unmarshal d.Schema, .NewSchema, .Log "Cannot instantiate the schema: %s" err])
    | .ok schema =>
      match w.SchemaNode schema (w.TopNode schema) with
      | .error err =>
        (.error .ErrInvalidSchema,
          [.Unmarshal d.Schema, .NewSchema, .SchemaNode (w.TopNode schema),
           .Log "The topNode cannot be created: %s" err])
      | .ok node =>
        let content := w.NodeString node
        (.ok content,
          [.Unmarshal d.Schema, .NewSchema, .SchemaNode (w.TopNode schema), .NodeString])

/-- The reference `ref` built at the start of `ensureNotesDir`. -/
def notesRef (w : World) : DocReference :=
  { Type_ := w.Apps, ID := w.Apps ++ "/" ++ w.NotesSlug }

/-- The view request `req` built at the start of `ensureNotesDir`. -/
def notesRequest (w : World) : ViewRequest :=
  let ref := notesRef w
  let key := [ref.Type_, ref.ID]
  let end_ := [ref.Type_, ref.ID, w.MaxString]
  { StartKey := key, EndKey := end_, IncludeDocs := true }

/-- The function `ensureNotesDir`: the notes folder or the error, and the
calls made. -/
def ensureNotesDir (w : World) : Except Error DirDoc × List Event :=
  let ref := notesRef w
  let req := notesRequest w
  match w.ExecView req with
  | .error err => (.error err, [.ExecView req])
  | .ok res =>
    match res.Rows with
    | row :: _ => (w.DirByID row.ID, [.ExecView req, .DirByID row.ID])
    | [] =>
      let dirname := w.Translate "Tree Notes"
      match w.NewDirDocWithPath dirname w.RootDirID "/" with
      | .error err => (.error err, [.ExecView req])
      | .ok dir =>
        let dir := dir.AddReferencedBy ref
        let dir := { dir with CozyMetadata := some (NewCozyMetadata (w.PageURL "/")) }
        match w.CreateDir dir with
        | (dir1, none) => (.ok dir1, [.ExecView req, .CreateDir dir])
        | (dir1, some err) =>
          if !w.IsConflictError err then
            (.error err, [.ExecView req, .CreateDir dir])
          else
            match w.DirByPath dir1.Fullpath with
            | .error err =>
              (.error err, [.ExecView req, .CreateDir dir, .DirByPath dir1.Fullpath])
            | .ok dir2 =>
              let olddoc := dir2.Clone
              let dir2 := dir2.AddReferencedBy ref
              let _ := w.UpdateDirDoc olddoc dir2
              (.ok dir2,
                [.ExecView req, .CreateDir dir, .DirByPath dir1.Fullpath,
                 .UpdateDirDoc olddoc dir2])

/-- The method `getDirID`: the identifier of the parent folder or the error,
and the calls made. -/
def Document.getDirID (w : World) (d : Document) : Except Error String × List Event :=
  if d.DirID ≠ "" then (.ok d.DirID, [])
  else
    match ensureNotesDir w with
    | (.error err, tr) => (.error err, tr)
    | (.ok parent, tr) => (.ok parent.ID, tr)

/-- The method `newFileDoc`: the file record or the error, the document after
the call, and the calls made. -/
def Document.newFileDoc (w : World) (d : Document) (content : Bytes) :
    Except Error FileDoc × Document × List Event :=
  match d.getDirID w with
  | (.error err, tr) => (.error err, d, tr)
  | (.ok dirID, tr) =>
    let (name, d) := d.filename
    match NewFileDoc w name dirID (content.length : Int) none "text/markdown" "text" w.Now
        false false [] with
    | .error err => (.error err, d, tr)
    | .ok fileDoc =>
      let fileDoc := { fileDoc with Metadata := d.metadata }
      let fileDoc := { fileDoc with CozyMetadata := some (NewCozyMetadata (w.PageURL "/")) }
      (.ok fileDoc, d, tr)

/-- The function `writeFile`: the returned error, and the calls made.  The
deferred function runs after `Write` and may replace a nil error by the error
of `Close`. -/
def writeFile (w : World) (fileDoc : FileDoc) (content : Bytes) : Option Error × List Event :=
  match w.CreateFile fileDoc with
  | some err => (some err, [.CreateFile fileDoc])
  | none =>
    let err := w.Write content
    let cerr := w.Close
    let err := if cerr ≠ none ∧ err = none then cerr else err
    (err, [.CreateFile fileDoc, .Write content, .Close])

/-- The part of `Create` that runs while the lock is held, before the deferred
`Unlock`. -/
def Document.createLocked (w : World) (d : Document) :
    Except Error FileDoc × Document × List Event :=
  let d := { d with Revision := 0 }
  match d.getInitialContent w with
  | (.error err, tr1) => (.error err, d, tr1)
  | (.ok content, tr1) =>
    match d.newFileDoc w content with
    | (.error err, d, tr2) => (.error err, d, tr1 ++ tr2)
    | (.ok fileDoc, d, tr2) =>
      match writeFile w fileDoc content with
      | (some err, tr3) => (.error err, d, tr1 ++ tr2 ++ tr3)
      | (none, tr3) => (.ok fileDoc, d, tr1 ++ tr2 ++ tr3)

/-- The method `Create`: the file record or the error, the document after the
call, and the calls made.  The deferred `Unlock` runs last when the lock was
taken. -/
def Document.Create (w : World) (d : Document) :
    Except Error FileDoc × Document × List Event :=
  match w.Lock with
  | some err => (.error err, d, [.Lock])
  | none =>
    let (res, d, tr) := d.createLocked w
    (res, d, .Lock :: tr ++ [.Unlock])

/-! ## Classes of calls and sample collaborators -/

/-- Calls to the index or to the storage layer. -/
def Event.isIndexOrStorage : Event → Bool
  | .ExecView _ | .DirByID _ | .CreateDir _ | .DirByPath _ | .UpdateDirDoc _ _
  | .CreateFile _ | .Write _ | .Close => true
  | _ => false

/-- Calls made to resolve the notes folder: the index query, the folder
lookups, the folder creation and the folder update. -/
def Event.isContainerCall : Event → Bool
  | .ExecView _ | .DirByID _ | .CreateDir _ | .DirByPath _ | .UpdateDirDoc _ _ => true
  | _ => false

/-- Calls to the lock. -/
def Event.isLockCall : Event → Bool
  | .Lock | .Unlock => true
  | _ => false

/-- A file handle was created: `CreateFile` was called and returned no error. -/
def handleCreated (w : World) (tr : List Event) : Bool :=
  tr.any fun ev =>
    match ev with
    | .CreateFile f => (w.CreateFile f).isNone
    | _ => false

/-- A `Write` was performed on a file handle. -/
def writePerformed (tr : List Event) : Bool :=
  tr.any fun ev =>
    match ev with
    | .Write _ => true
    | _ => false

/-- The folder passed to `CreateDir` by `ensureNotesDir`, from the folder
returned by `NewDirDocWithPath`. -/
def preparedNotesDir (w : World) (dir : DirDoc) : DirDoc :=
  { dir.AddReferencedBy (notesRef w) with
    CozyMetadata := some (NewCozyMetadata (w.PageURL "/")) }

/-- The bytes of the schema
`{"topNode":"doc","nodes":{"doc":{"content":"text*"}}}`. -/
def sampleSchema : Bytes :=
  [123, 34, 116, 111, 112, 78, 111, 100, 101, 34, 58, 34, 100, 111, 99, 34, 44, 34, 110,
   111, 100, 101, 115, 34, 58, 123, 34, 100, 111, 99, 34, 58, 123, 34, 99, 111, 110, 116,
   101, 110, 116, 34, 58, 34, 116, 101, 120, 116, 42, 34, 125, 125, 125]

/-- Collaborators that succeed on the schema `sampleSchema`: the decoder
accepts these bytes and rejects any other input (the empty input among them),
the schema engine yields the content `doc`, the index has no row for the notes
folder and the storage layer creates the folder with identifier `notes-dir`. -/
def sampleWorld : World where
  SchemaSpec := Unit
  Schema := Unit
  Node := Unit
  Lock := none
  Unmarshal := fun b => if b = sampleSchema then .ok () else .error (.failure "invalid JSON")
  NewSchema := fun _ => .ok ()
  TopNode := fun _ => "doc"
  SchemaNode := fun _ _ => .ok ()
  NodeString := fun _ => [100, 111, 99]
  Apps := "io.cozy.apps"
  NotesSlug := "notes"
  MaxString := "max"
  RootDirID := "io.cozy.files.root-dir"
  ExecView := fun _ => .ok { Rows := [] }
  DirByID := fun id => .ok { DocID := id, Fullpath := "/Notes", ReferencedBy := [], CozyMetadata := none }
  Translate := fun _ => "Notes"
  PageURL := fun path => "https://cozy.example.net" ++ path
  NewDirDocWithPath := fun name _ dirPath =>
    .ok { DocID := "", Fullpath := dirPath ++ name, ReferencedBy := [], CozyMetadata := none }
  CreateDir := fun dir => ({ dir with DocID := "notes-dir" }, none)
  IsConflictError := fun err => decide (err = .couch 409)
  DirByPath := fun path =>
    .ok { DocID := "other-dir", Fullpath := path, ReferencedBy := [], CozyMetadata := none }
  UpdateDirDoc := fun _ _ => none
  checkFileName := fun _ => none
  Now := 0
  CreateFile := fun _ => none
  Write := fun _ => none
  Close := none

/-- A document with the given title, folder and content, and the schema
`sampleSchema`. -/
def sampleDoc (title dirID : String) (content : Bytes) : Document :=
  { DocID := "", DocRev := "", Title := title, DirID := dirID, Revision := 7,
    Schema := sampleSchema, Content := content }

/-! ## File names -/

theorem startsWith_single {α : Type} [DecidableEq α] (a c : α) (cs : List α) :
    startsWith [a] (c :: cs) = decide (a = c) := by
  by_cases h : a = c <;> simp [startsWith, h]

/-- Replacing a one-element `old` by a one-element `new` maps every element. -/
theorem replaceFrom_single {α : Type} [DecidableEq α] (a b : α) (s : List α) :
    replaceFrom [a] [b] s 0 = s.map (fun c => if c = a then b else c) := by
  induction s with
  | nil => simp [replaceFrom]
  | cons c cs ih =>
    by_cases h : a = c
    · subst h
      simp [replaceFrom, startsWith_single, ih]
    · have h2 : ¬ c = a := fun e => h e.symm
      simp [replaceFrom, startsWith_single, h, h2, ih]

/-- The replacement made by `filename`, character by character. -/
theorem ReplaceAll_slash (t : String) :
    ReplaceAll t "/" "-" = ⟨t.data.map (fun c => if c = '/' then '-' else c)⟩ := by
  have h1 : ¬ ("/" : String) = "-" := by decide
  have h2 : ¬ ("/" : String).data = [] := by decide
  have h3 : ("/" : String).data = ['/'] := rfl
  have h4 : ("-" : String).data = ['-'] := rfl
  simp only [ReplaceAll, if_neg h1, if_neg h2, h3, h4, replaceFrom_single]

theorem filename_name (d : Document) :
    d.filename.1 =
      ReplaceAll (if d.Title = "" then "New note" else d.Title) "/" "-" ++ ".cozy-note" := by
  unfold Document.filename
  by_cases h : d.Title = "" <;> simp [h]

theorem filename_doc (d : Document) :
    d.filename.2 = if d.Title = "" then { d with Title := "New note" } else d := by
  unfold Document.filename
  by_cases h : d.Title = "" <;> simp [h]

/-- C7: `filename` returns the title (the placeholder `New note` when the title
is empty) with every `/` replaced by `-`, followed by `.cozy-note`; the title
`A/B` gives `A-B.cozy-note` and the empty title gives `New note.cozy-note`. -/
theorem filename_replaces_slashes (d : Document) :
    d.filename.1 =
        String.mk ((if d.Title = "" then "New note" else d.Title).data.map
          (fun c => if c = '/' then '-' else c)) ++ ".cozy-note" ∧
      (d.Title = "A/B" → d.filename.1 = "A-B.cozy-note") ∧
      (d.Title = "" → d.filename.1 = "New note.cozy-note") := by
  refine ⟨?_, ?_, ?_⟩
  · rw [filename_name, ReplaceAll_slash]
  · intro h
    rw [filename_name, h]
    decide
  · intro h
    rw [filename_name, h]
    decide

/-- C8: the name returned by `filename` is a single path segment: it contains
no `/`, it is not empty and it ends with `.cozy-note`. -/
theorem filename_single_segment (d : Document) :
    '/' ∉ d.filename.1.data ∧ d.filename.1 ≠ "" ∧
      (".cozy-note" : String).data <:+ d.filename.1.data := by
  rw [filename_name, ReplaceAll_slash]
  refine ⟨?_, ?_, ?_⟩
  · simp only [String.data_append, List.mem_append, List.mem_map, not_or, not_exists, not_and]
    refine ⟨?_, by decide⟩
    intro c _
    by_cases h : c = '/'
    · simp [h]
    · simp [h]
  · intro h
    have h2 := congrArg String.length h
    simp only [String.length_append] at h2
    have h3 : (".cozy-note" : String).length = 10 := by decide
    have h4 : ("" : String).length = 0 := by decide
    omega
  · simp only [String.data_append]
    exact List.suffix_append _ _

/-! ## Writing the file -/

/-- C1: `writeFile` returns the error of `CreateFile` without calling `Write`
or `Close`; after a successful `CreateFile` it calls `Write` and then `Close`
once, returns the error of `Write` whatever `Close` returns, returns the error
of `Close` when `Write` succeeded, and returns nil exactly when the three calls
succeed. -/
theorem writeFile_error_priority (w : World) (fileDoc : FileDoc) (content : Bytes) :
    (∀ e, w.CreateFile fileDoc = some e →
        writeFile w fileDoc content = (some e, [.CreateFile fileDoc])) ∧
      (∀ e, w.CreateFile fileDoc = none → w.Write content = some e →
        writeFile w fileDoc content =
          (some e, [.CreateFile fileDoc, .Write content, .Close])) ∧
      (∀ e, w.CreateFile fileDoc = none → w.Write content = none → w.Close = some e →
        writeFile w fileDoc content =
          (some e, [.CreateFile fileDoc, .Write content, .Close])) ∧
      (w.CreateFile fileDoc = none →
        List.count Event.Close (writeFile w fileDoc content).2 = 1) ∧
      ((writeFile w fileDoc content).1 = none ↔
        w.CreateFile fileDoc = none ∧ w.Write content = none ∧ w.Close = none) := by
  refine ⟨?_, ?_, ?_, ?_, ?_⟩
  · intro e h
    simp [writeFile, h]
  · intro e h1 h2
    simp [writeFile, h1, h2]
  · intro e h1 h2 h3
    simp [writeFile, h1, h2, h3]
  · intro h
    simp [writeFile, h, List.count_cons]
  · unfold writeFile
    cases h1 : w.CreateFile fileDoc with
    | some e => simp
    | none =>
      cases h2 : w.Write content <;> cases h3 : w.Close <;> simp

/-! ## The file record -/

theorem getDirID_of_ne (w : World) (d : Document) (h : d.DirID ≠ "") :
    d.getDirID w = (.ok d.DirID, []) := by
  simp [Document.getDirID, h]

theorem filename_DirID (d : Document) : d.filename.2.DirID = d.DirID := by
  rw [filename_doc]
  split <;> rfl

theorem filename_Content (d : Document) : d.filename.2.Content = d.Content := by
  rw [filename_doc]
  split <;> rfl

theorem filename_Title (d : Document) :
    d.filename.2.Title = if d.Title = "" then "New note" else d.Title := by
  rw [filename_doc]
  split <;> rfl

/-- The result of `newFileDoc` when it returns a file record: the record is the
one built by `NewFileDoc` from the name and the folder identifier, with the
metadata of the document as `filename` left it. -/
theorem newFileDoc_ok (w : World) (d : Document) (content : Bytes) (f : FileDoc)
    (d1 : Document) (tr : List Event) (h : d.newFileDoc w content = (.ok f, d1, tr)) :
    ∃ dirID, d.getDirID w = (.ok dirID, tr) ∧ d1 = d.filename.2 ∧
      f.DocName = d.filename.1 ∧ f.DirID = dirID ∧ f.ByteSize = (content.length : Int) ∧
      f.Metadata = d.filename.2.metadata := by
  unfold Document.newFileDoc at h
  rcases hg : d.getDirID w with ⟨r, tr0⟩
  rw [hg] at h
  cases r with
  | error e => simp at h
  | ok dirID =>
    simp only [NewFileDoc] at h
    cases hc : w.checkFileName d.filename.1 with
    | some e => simp [hc] at h
    | none =>
      simp only [hc] at h
      injection h with h1 h2
      injection h1 with h1
      injection h2 with h2 h3
      subst h1 h2 h3
      exact ⟨dirID, rfl, rfl, rfl, rfl, rfl, rfl⟩

/-- The calls made by `newFileDoc` are those of `getDirID`. -/
theorem newFileDoc_trace (w : World) (d : Document) (content : Bytes) :
    (d.newFileDoc w content).2.2 = (d.getDirID w).2 := by
  unfold Document.newFileDoc
  rcases hg : d.getDirID w with ⟨r, tr0⟩
  cases r with
  | error e => rfl
  | ok dirID =>
    simp only [NewFileDoc]
    cases hc : w.checkFileName d.filename.1 <;> rfl

/-- C10: `filename` assigns the title `New note` to a document with an empty
title and leaves any other document unchanged, so a second call returns the
same name and the same document; a file record built by `newFileDoc` from a
document with an empty title has the metadata title `New note`, and the name of
every file record built by `newFileDoc` is its metadata title with `/` replaced
by `-`, followed by `.cozy-note`. -/
theorem filename_sets_title (w : World) (d : Document) (content : Bytes) :
    (d.Title = "" → d.filename.2.Title = "New note") ∧
      (d.Title ≠ "" → d.filename.2 = d) ∧
      d.filename.2.filename = d.filename ∧
      (∀ f d1 tr, d.newFileDoc w content = (.ok f, d1, tr) →
        (d.Title = "" → f.Metadata.lookup "title" = some (.str "New note")) ∧
        ∃ t, f.Metadata.lookup "title" = some (.str t) ∧
          f.DocName = ReplaceAll t "/" "-" ++ ".cozy-note") := by
  have hne : ¬ ("New note" : String) = "" := by decide
  refine ⟨?_, ?_, ?_, ?_⟩
  · intro h
    simp [filename_Title, h]
  · intro h
    simp [filename_doc, h]
  · by_cases h : d.Title = ""
    · simp [Document.filename, h, hne]
    · simp [Document.filename, h]
  · intro f d1 tr h
    obtain ⟨dirID, -, -, hname, -, -, hmeta⟩ := newFileDoc_ok w d content f d1 tr h
    have hl : f.Metadata.lookup "title" = some (.str d.filename.2.Title) := by
      rw [hmeta]
      simp [Document.metadata, List.lookup]
    refine ⟨?_, d.filename.2.Title, hl, ?_⟩
    · intro ht
      rw [hl, filename_Title, if_pos ht]
    · rw [hname, filename_name, filename_Title]

/-- C10 at a sample: the record built from a document with an empty title. -/
theorem filename_sets_title_sample :
    ((sampleDoc "" "d1" []).newFileDoc sampleWorld [100, 111, 99]).1.toOption.map
        (fun f => (f.DocName, f.Metadata.lookup "title")) =
      some ("New note.cozy-note", some (.str "New note")) ∧
    ((sampleDoc "" "d1" []).filename.2.Title = "New note") := by
  have h := filename_sets_title sampleWorld (sampleDoc "" "d1" []) [100, 111, 99]
  exact ⟨by decide, h.1 rfl⟩

/-! ## The calls made by each function -/

/-- The calls of `getInitialContent` go to the schema engine and the logger. -/
theorem getInitialContent_trace (w : World) (d : Document) :
    ∀ ev ∈ (d.getInitialContent w).2,
      ev.isIndexOrStorage = false ∧ ev.isLockCall = false := by
  unfold Document.getInitialContent
  split
  · simp [Event.isIndexOrStorage, Event.isLockCall]
  · split
    · simp [Event.isIndexOrStorage, Event.isLockCall]
    · split <;> simp [Event.isIndexOrStorage, Event.isLockCall]

/-- The content returned by `getInitialContent` depends on the schema only. -/
theorem getInitialContent_congr (w : World) (d d1 : Document) (h : d1.Schema = d.Schema) :
    d1.getInitialContent w = d.getInitialContent w := by
  unfold Document.getInitialContent
  rw [h]

/-- The calls of `ensureNotesDir` go to the index and to the folders of the
storage layer. -/
theorem ensureNotesDir_trace (w : World) :
    ∀ ev ∈ (ensureNotesDir w).2, ev.isContainerCall = true := by
  unfold ensureNotesDir
  simp only []
  split
  · simp [Event.isContainerCall]
  · split
    · simp [Event.isContainerCall]
    · split
      · simp [Event.isContainerCall]
      · split
        · simp [Event.isContainerCall]
        · split
          · simp [Event.isContainerCall]
          · split <;> simp [Event.isContainerCall]

theorem getDirID_trace (w : World) (d : Document) :
    ∀ ev ∈ (d.getDirID w).2, ev.isContainerCall = true := by
  unfold Document.getDirID
  split
  · simp
  · have h := ensureNotesDir_trace w
    rcases hr : ensureNotesDir w with ⟨r, tr⟩
    rw [hr] at h
    cases r <;> simpa using h

theorem isContainerCall_facts (ev : Event) (h : ev.isContainerCall = true) :
    ev.isLockCall = false ∧ (∀ f, ev ≠ .CreateFile f) ∧ (∀ c, ev ≠ .Write c) ∧
      ev ≠ .Close := by
  cases ev <;> simp [Event.isContainerCall, Event.isLockCall] at h ⊢

theorem notStorage_facts (ev : Event) (h : ev.isIndexOrStorage = false) :
    ev.isContainerCall = false ∧ (∀ f, ev ≠ .CreateFile f) ∧ (∀ c, ev ≠ .Write c) ∧
      ev ≠ .Close := by
  cases ev <;> simp [Event.isIndexOrStorage, Event.isContainerCall] at h ⊢

/-- The calls of `writeFile`, by the outcome of `CreateFile`. -/
theorem writeFile_trace (w : World) (f : FileDoc) (c : Bytes) :
    (writeFile w f c).2 =
      if w.CreateFile f = none then [.CreateFile f, .Write c, .Close] else [.CreateFile f] := by
  unfold writeFile
  cases h : w.CreateFile f <;> simp

/-- The three ways through the part of `Create` that runs under the lock: the
initial content fails, the file record fails, or the file is written. -/
theorem createLocked_cases (w : World) (d : Document) :
    (∃ e tr1, ({ d with Revision := 0 } : Document).getInitialContent w = (.error e, tr1) ∧
        d.createLocked w = (.error e, { d with Revision := 0 }, tr1)) ∨
      (∃ content tr1 e d1 tr2,
        ({ d with Revision := 0 } : Document).getInitialContent w = (.ok content, tr1) ∧
        ({ d with Revision := 0 } : Document).newFileDoc w content = (.error e, d1, tr2) ∧
        d.createLocked w = (.error e, d1, tr1 ++ tr2)) ∨
      (∃ content tr1 f d1 tr2,
        ({ d with Revision := 0 } : Document).getInitialContent w = (.ok content, tr1) ∧
        ({ d with Revision := 0 } : Document).newFileDoc w content = (.ok f, d1, tr2) ∧
        d.createLocked w =
          ((match (writeFile w f content).1 with
            | some e => .error e
            | none => .ok f), d1, tr1 ++ tr2 ++ (writeFile w f content).2)) := by
  rcases h1 : ({ d with Revision := 0 } : Document).getInitialContent w with ⟨r1, tr1⟩
  cases r1 with
  | error e =>
    refine Or.inl ⟨e, tr1, rfl, ?_⟩
    simp only [Document.createLocked, h1]
  | ok content =>
    rcases h2 : ({ d with Revision := 0 } : Document).newFileDoc w content with ⟨r2, d1, tr2⟩
    cases r2 with
    | error e =>
      refine Or.inr (Or.inl ⟨content, tr1, e, d1, tr2, rfl, h2, ?_⟩)
      simp only [Document.createLocked, h1, h2]
    | ok f =>
      refine Or.inr (Or.inr ⟨content, tr1, f, d1, tr2, rfl, h2, ?_⟩)
      rcases h3 : writeFile w f content with ⟨r3, tr3⟩
      cases r3 <;> simp only [Document.createLocked, h1, h2, h3]

/-- The result of `Create` when the lock is not acquired. -/
theorem Create_of_lock_failed (w : World) (d : Document) (e : Error) (h : w.Lock = some e) :
    d.Create w = (.error e, d, [.Lock]) := by
  unfold Document.Create
  rw [h]

/-- A nil error of `writeFile` means that `CreateFile` succeeded. -/
theorem writeFile_none_CreateFile (w : World) (f : FileDoc) (c : Bytes)
    (h : (writeFile w f c).1 = none) : w.CreateFile f = none := by
  unfold writeFile at h
  cases hc : w.CreateFile f with
  | none => rfl
  | some e => simp [hc] at h

/-- The result of `Create` from the part that runs under the lock. -/
theorem Create_of_locked (w : World) (d : Document) (h : w.Lock = none) :
    d.Create w =
      ((d.createLocked w).1, (d.createLocked w).2.1,
        .Lock :: (d.createLocked w).2.2 ++ [.Unlock]) := by
  unfold Document.Create
  rw [h]

/-- Every call made under the lock is a call of `getInitialContent`, a call
made to resolve the folder, or one of the calls of `writeFile`. -/
theorem createLocked_trace_mem (w : World) (d : Document) :
    ∀ ev ∈ (d.createLocked w).2.2,
      (ev.isIndexOrStorage = false ∧ ev.isLockCall = false) ∨ ev.isContainerCall = true ∨
        (∃ f, ev = .CreateFile f) ∨ (∃ c, ev = .Write c) ∨ ev = .Close := by
  intro ev hev
  rcases createLocked_cases w d with ⟨e, tr1, h1, hc⟩ | ⟨content, tr1, e, d1, tr2, h1, h2, hc⟩ |
    ⟨content, tr1, f, d1, tr2, h1, h2, hc⟩
  · rw [hc] at hev
    have := getInitialContent_trace w { d with Revision := 0 } ev (by rw [h1]; exact hev)
    exact Or.inl this
  · rw [hc] at hev
    rcases List.mem_append.1 hev with h | h
    · exact Or.inl (getInitialContent_trace w { d with Revision := 0 } ev (by rw [h1]; exact h))
    · have ht := newFileDoc_trace w { d with Revision := 0 } content
      rw [h2] at ht
      exact Or.inr (Or.inl (getDirID_trace w _ ev (by rw [← ht]; exact h)))
  · rw [hc] at hev
    rcases List.mem_append.1 hev with h | h
    · rcases List.mem_append.1 h with h | h
      · exact Or.inl (getInitialContent_trace w { d with Revision := 0 } ev (by rw [h1]; exact h))
      · have ht := newFileDoc_trace w { d with Revision := 0 } content
        rw [h2] at ht
        exact Or.inr (Or.inl (getDirID_trace w _ ev (by rw [← ht]; exact h)))
    · rw [writeFile_trace] at h
      split at h
      · simp only [List.mem_cons, List.mem_singleton, List.not_mem_nil, or_false] at h
        rcases h with h | h | h
        · exact Or.inr (Or.inr (Or.inl ⟨f, h⟩))
        · exact Or.inr (Or.inr (Or.inr (Or.inl ⟨content, h⟩)))
        · exact Or.inr (Or.inr (Or.inr (Or.inr h)))
      · simp only [List.mem_singleton] at h
        exact Or.inr (Or.inr (Or.inl ⟨f, h⟩))

theorem createLocked_no_lock_call (w : World) (d : Document) :
    ∀ ev ∈ (d.createLocked w).2.2, ev.isLockCall = false := by
  intro ev hev
  rcases createLocked_trace_mem w d ev hev with h | h | ⟨f, h⟩ | ⟨c, h⟩ | h
  · exact h.2
  · exact (isContainerCall_facts ev h).1
  · rw [h]; rfl
  · rw [h]; rfl
  · rw [h]; rfl

/-! ## The lock -/

/-- C6: when the lock is acquired, the calls of `Create` start with `Lock` and
end with `Unlock`, and `Unlock` (like `Lock`) occurs exactly once among them,
whatever the result; when the acquisition fails, `Create` returns that error
with no file record, leaves the document as it was, and `Lock` is the only call
made. -/
theorem Create_lock_discipline (w : World) (d : Document) :
    (w.Lock = none →
        (∃ mid, (d.Create w).2.2 = .Lock :: mid ++ [.Unlock] ∧
          ∀ ev ∈ mid, ev.isLockCall = false) ∧
        (d.Create w).2.2.getLast? = some .Unlock ∧
        List.count Event.Unlock (d.Create w).2.2 = 1 ∧
        List.count Event.Lock (d.Create w).2.2 = 1) ∧
      (∀ e, w.Lock = some e → d.Create w = (.error e, d, [.Lock])) := by
  constructor
  · intro h
    rw [Create_of_locked w d h]
    have hmid := createLocked_no_lock_call w d
    have hU : Event.Unlock ∉ (d.createLocked w).2.2 := fun hm => by
      have := hmid _ hm
      simp [Event.isLockCall] at this
    have hL : Event.Lock ∉ (d.createLocked w).2.2 := fun hm => by
      have := hmid _ hm
      simp [Event.isLockCall] at this
    refine ⟨⟨_, rfl, hmid⟩, ?_, ?_, ?_⟩
    · exact List.getLast?_concat _
    · simp [List.count_cons, List.count_append, List.count_eq_zero.2 hU]
    · simp [List.count_cons, List.count_append, List.count_eq_zero.2 hL]
  · intro e h
    exact Create_of_lock_failed w d e h

/-- C6 at samples: a successful creation and a failed acquisition. -/
theorem Create_lock_discipline_sample :
    ((sampleDoc "A/B" "d1" []).Create sampleWorld).2.2.getLast? = some .Unlock ∧
      (sampleDoc "A/B" "d1" []).Create { sampleWorld with Lock := some (.failure "redis") } =
        (.error (.failure "redis"), sampleDoc "A/B" "d1" [], [.Lock]) :=
  ⟨((Create_lock_discipline sampleWorld (sampleDoc "A/B" "d1" [])).1 rfl).2.1,
    (Create_lock_discipline { sampleWorld with Lock := some (.failure "redis") }
      (sampleDoc "A/B" "d1" [])).2 _ rfl⟩

/-! ## Invalid schemas -/

/-- C3: when the lock is acquired and the schema fails to decode, to
instantiate, or to give its top node, `Create` returns no file record and the
error `ErrInvalidSchema`, whatever the cause, and makes no call to the index or
to the storage layer. -/
theorem Create_invalid_schema (w : World) (d : Document) (hlock : w.Lock = none)
    (hfail : (∃ e, w.Unmarshal d.Schema = .error e) ∨
      (∃ spec e, w.Unmarshal d.Schema = .ok spec ∧ w.NewSchema spec = .error e) ∨
      (∃ spec schema e, w.Unmarshal d.Schema = .ok spec ∧ w.NewSchema spec = .ok schema ∧
        w.SchemaNode schema (w.TopNode schema) = .error e)) :
    (d.Create w).1 = .error .ErrInvalidSchema ∧
      ∀ ev ∈ (d.Create w).2.2, ev.isIndexOrStorage = false := by
  have hinit : ∃ tr, (({ d with Revision := 0 } : Document).getInitialContent w) =
      (.error .ErrInvalidSchema, tr) := by
    unfold Document.getInitialContent
    rcases hfail with ⟨e, h1⟩ | ⟨spec, e, h1, h2⟩ | ⟨spec, schema, e, h1, h2, h3⟩
    · simp only [h1]; exact ⟨_, rfl⟩
    · simp only [h1, h2]; exact ⟨_, rfl⟩
    · simp only [h1, h2, h3]; exact ⟨_, rfl⟩
  obtain ⟨tr, htr⟩ := hinit
  have hc : d.createLocked w = (.error .ErrInvalidSchema, { d with Revision := 0 }, tr) := by
    simp only [Document.createLocked, htr]
  rw [Create_of_locked w d hlock, hc]
  refine ⟨rfl, ?_⟩
  intro ev hev
  simp only [List.mem_cons, List.mem_append, List.mem_singleton, List.not_mem_nil,
    or_false] at hev
  rcases hev with (h | h) | h
  · rw [h]; rfl
  · exact (getInitialContent_trace w { d with Revision := 0 } ev (by rw [htr]; exact h)).1
  · rw [h]; rfl

/-- C3 at samples: a failure at each of the three steps. -/
theorem Create_invalid_schema_sample :
    ((sampleDoc "t" "" []).Create
        { sampleWorld with Unmarshal := fun _ => .error (.failure "json") }).1 =
        .error .ErrInvalidSchema ∧
      ((sampleDoc "t" "" []).Create
        { sampleWorld with NewSchema := fun _ => .error (.failure "no top node") }).1 =
        .error .ErrInvalidSchema ∧
      ((sampleDoc "t" "" []).Create
        { sampleWorld with SchemaNode := fun _ _ => .error (.failure "content") }).1 =
        .error .ErrInvalidSchema :=
  ⟨(Create_invalid_schema _ _ rfl (Or.inl ⟨_, rfl⟩)).1,
    (Create_invalid_schema _ _ rfl (Or.inr (Or.inl ⟨(), _, rfl, rfl⟩))).1,
    (Create_invalid_schema _ _ rfl (Or.inr (Or.inr ⟨(), (), _, rfl, rfl, rfl⟩))).1⟩

/-! ## The parent folder -/

/-- C9: for a document with a non-empty `DirID`, `getDirID` returns that
identifier with a nil error and makes no call; `newFileDoc` makes no call and
the file record it builds has the `DirID` of the document as parent; `Create`
makes no call to resolve the notes folder, and the file record it returns has
the `DirID` of the document as parent. -/
theorem getDirID_explicit (w : World) (d : Document) (h : d.DirID ≠ "") :
    d.getDirID w = (.ok d.DirID, []) ∧
      (∀ content, (d.newFileDoc w content).2.2 = [] ∧
        ∀ f d1 tr, d.newFileDoc w content = (.ok f, d1, tr) → f.DirID = d.DirID) ∧
      (∀ ev ∈ (d.Create w).2.2, ev.isContainerCall = false) ∧
      (∀ f, (d.Create w).1 = .ok f → f.DirID = d.DirID) := by
  have hg := getDirID_of_ne w d h
  have hg0 := getDirID_of_ne w { d with Revision := 0 } h
  have hnew : ∀ (d0 : Document) content f d1 tr, d0.DirID = d.DirID →
      d0.newFileDoc w content = (.ok f, d1, tr) → f.DirID = d.DirID := by
    intro d0 content f d1 tr hd hn
    obtain ⟨dirID, hdir, -, -, hf, -, -⟩ := newFileDoc_ok w d0 content f d1 tr hn
    rw [getDirID_of_ne w d0 (by rw [hd]; exact h)] at hdir
    injection hdir with h1 _
    injection h1 with h1
    rw [hf, ← h1, hd]
  refine ⟨hg, ?_, ?_, ?_⟩
  · intro content
    refine ⟨?_, fun f d1 tr hn => hnew d content f d1 tr rfl hn⟩
    rw [newFileDoc_trace, hg]
  · intro ev hev
    cases hl : w.Lock with
    | some e =>
      rw [Create_of_lock_failed w d e hl] at hev
      simp only [List.mem_singleton] at hev
      rw [hev]; rfl
    | none =>
      rw [Create_of_locked w d hl] at hev
      simp only [List.mem_cons, List.mem_append, List.mem_singleton, List.not_mem_nil,
        or_false] at hev
      rcases hev with (hev | hev) | hev
      · rw [hev]; rfl
      · rcases createLocked_cases w d with ⟨e, tr1, h1, hc⟩ |
          ⟨content, tr1, e, d1, tr2, h1, h2, hc⟩ | ⟨content, tr1, f, d1, tr2, h1, h2, hc⟩
        · rw [hc] at hev
          exact (notStorage_facts ev
            (getInitialContent_trace w _ ev (by rw [h1]; exact hev)).1).1
        · have ht := newFileDoc_trace w { d with Revision := 0 } content
          rw [h2, hg0] at ht
          simp only at ht
          rw [hc, ht, List.append_nil] at hev
          exact (notStorage_facts ev
            (getInitialContent_trace w _ ev (by rw [h1]; exact hev)).1).1
        · have ht := newFileDoc_trace w { d with Revision := 0 } content
          rw [h2, hg0] at ht
          simp only at ht
          rw [hc, ht, List.append_nil, writeFile_trace] at hev
          rcases List.mem_append.1 hev with hev | hev
          · exact (notStorage_facts ev
              (getInitialContent_trace w _ ev (by rw [h1]; exact hev)).1).1
          · split at hev
            · simp only [List.mem_cons, List.mem_singleton, List.not_mem_nil,
                or_false] at hev
              rcases hev with hev | hev | hev <;> (rw [hev]; rfl)
            · simp only [List.mem_singleton] at hev
              rw [hev]; rfl
      · rw [hev]; rfl
  · intro f hf
    cases hl : w.Lock with
    | some e =>
      rw [Create_of_lock_failed w d e hl] at hf
      simp at hf
    | none =>
      rw [Create_of_locked w d hl] at hf
      simp only at hf
      rcases createLocked_cases w d with ⟨e, tr1, h1, hc⟩ |
        ⟨content, tr1, e, d1, tr2, h1, h2, hc⟩ | ⟨content, tr1, f1, d1, tr2, h1, h2, hc⟩
      · rw [hc] at hf; simp at hf
      · rw [hc] at hf; simp at hf
      · rw [hc] at hf
        have hd := hnew { d with Revision := 0 } content f1 d1 tr2 rfl h2
        cases hw : (writeFile w f1 content).1 with
        | some e => simp [hw] at hf
        | none =>
          simp only [hw] at hf
          injection hf with hf
          rw [← hf]; exact hd

/-- C9 at a sample: a creation in an explicit folder. -/
theorem getDirID_explicit_sample :
    (sampleDoc "A/B" "d1" []).getDirID sampleWorld = (.ok "d1", []) ∧
      ((sampleDoc "A/B" "d1" []).Create sampleWorld).1.toOption.map (fun f => f.DirID) =
        some "d1" :=
  ⟨(getDirID_explicit sampleWorld (sampleDoc "A/B" "d1" []) (by decide)).1, by decide⟩

/-! ## Failures and the content of the file -/

/-- Before `writeFile` no call is made on a file. -/
theorem no_file_call_before_writeFile (w : World) (d : Document) (content : Bytes)
    (ev : Event)
    (hev : ev ∈ (d.getInitialContent w).2 ++ (d.newFileDoc w content).2.2) :
    (∀ f, ev ≠ .CreateFile f) ∧ (∀ c, ev ≠ .Write c) ∧ ev ≠ .Close := by
  rcases List.mem_append.1 hev with h | h
  · exact (notStorage_facts ev (getInitialContent_trace w d ev h).1).2
  · rw [newFileDoc_trace] at h
    exact (isContainerCall_facts ev (getDirID_trace w d ev h)).2

theorem handleCreated_false (w : World) (tr : List Event)
    (h : ∀ ev ∈ tr, ∀ f, ev = .CreateFile f → w.CreateFile f ≠ none) :
    handleCreated w tr = false := by
  unfold handleCreated
  rw [List.any_eq_false]
  intro ev hev
  cases ev with
  | CreateFile f =>
    have := h _ hev f rfl
    cases hc : w.CreateFile f with
    | none => exact absurd hc this
    | some e => simp [hc]
  | _ => simp

theorem writePerformed_false (tr : List Event) (h : ∀ ev ∈ tr, ∀ c, ev ≠ .Write c) :
    writePerformed tr = false := by
  unfold writePerformed
  rw [List.any_eq_false]
  intro ev hev
  cases ev with
  | Write c => exact absurd rfl (h _ hev c)
  | _ => simp

/-- An error of `newFileDoc` is the error of `getDirID` or the error of the
name check of `NewFileDoc`. -/
theorem newFileDoc_error (w : World) (d : Document) (content : Bytes) (e : Error)
    (h : (d.newFileDoc w content).1 = .error e) :
    (d.getDirID w).1 = .error e ∨ w.checkFileName d.filename.1 = some e := by
  unfold Document.newFileDoc at h
  rcases hg : d.getDirID w with ⟨r, tr0⟩
  rw [hg] at h
  cases r with
  | error e1 =>
    simp only at h
    injection h with h
    exact Or.inl (by rw [h])
  | ok dirID =>
    simp only [NewFileDoc] at h
    cases hc : w.checkFileName d.filename.1 with
    | some e1 =>
      simp only [hc] at h
      injection h with h
      exact Or.inr (by rw [h])
    | none => simp [hc] at h

/-- C2, as the code has it: `Create` returns a file record with a nil error, or
returns an error.  In the second case either no file handle was created and no
`Write` was performed, and the error is that of `Lock`, of the initial content,
of the folder resolution, of the name check of the file record or of
`CreateFile`; or `CreateFile` returned a handle for the file record, the calls
end with `CreateFile`, `Write` of the initial content, `Close` and `Unlock`, no
other bytes were passed to `Write`, and the error is that of `Write`, or that of
`Close` after a successful `Write`. -/
theorem Create_failure_modes (w : World) (d : Document) :
    (∃ f, (d.Create w).1 = .ok f) ∨
      ∃ e, (d.Create w).1 = .error e ∧
        ((handleCreated w (d.Create w).2.2 = false ∧
            writePerformed (d.Create w).2.2 = false ∧
            (w.Lock = some e ∨
              (({ d with Revision := 0 } : Document).getInitialContent w).1 = .error e ∨
              ∃ content,
                (({ d with Revision := 0 } : Document).getInitialContent w).1 = .ok content ∧
                ((({ d with Revision := 0 } : Document).getDirID w).1 = .error e ∨
                  w.checkFileName ({ d with Revision := 0 } : Document).filename.1 = some e ∨
                  ∃ f, (({ d with Revision := 0 } : Document).newFileDoc w content).1 = .ok f ∧
                    w.CreateFile f = some e))) ∨
          ∃ content f,
            (({ d with Revision := 0 } : Document).getInitialContent w).1 = .ok content ∧
            (({ d with Revision := 0 } : Document).newFileDoc w content).1 = .ok f ∧
            w.CreateFile f = none ∧
            (d.Create w).2.2 =
              .Lock :: ((({ d with Revision := 0 } : Document).getInitialContent w).2 ++
                (({ d with Revision := 0 } : Document).newFileDoc w content).2.2 ++
                [.CreateFile f, .Write content, .Close]) ++ [.Unlock] ∧
            handleCreated w (d.Create w).2.2 = true ∧
            (∀ c, Event.Write c ∈ (d.Create w).2.2 → c = content) ∧
            (w.Write content = some e ∨ (w.Write content = none ∧ w.Close = some e))) := by
  cases hl : w.Lock with
  | some e =>
    rw [Create_of_lock_failed w d e hl]
    exact Or.inr ⟨e, rfl,
      Or.inl ⟨by simp [handleCreated], by simp [writePerformed], Or.inl rfl⟩⟩
  | none =>
    rw [Create_of_locked w d hl]
    have early : ∀ tr : List Event,
        (∀ ev ∈ tr, (∀ f, ev ≠ .CreateFile f) ∧ (∀ c, ev ≠ .Write c) ∧ ev ≠ .Close) →
        handleCreated w (.Lock :: tr ++ [.Unlock]) = false ∧
          writePerformed (.Lock :: tr ++ [.Unlock]) = false := by
      intro tr htr
      constructor
      · apply handleCreated_false
        intro ev hev f hf
        simp only [List.cons_append, List.mem_cons, List.mem_append, List.mem_singleton,
          List.not_mem_nil, or_false] at hev
        rcases hev with hev | hev | hev
        · rw [hev] at hf; cases hf
        · exact absurd hf ((htr ev hev).1 f)
        · rw [hev] at hf; cases hf
      · apply writePerformed_false
        intro ev hev c hc
        simp only [List.cons_append, List.mem_cons, List.mem_append, List.mem_singleton,
          List.not_mem_nil, or_false] at hev
        rcases hev with hev | hev | hev
        · rw [hev] at hc; cases hc
        · exact absurd hc ((htr ev hev).2.1 c)
        · rw [hev] at hc; cases hc
    rcases createLocked_cases w d with ⟨e, tr1, h1, hc⟩ |
      ⟨content, tr1, e, d1, tr2, h1, h2, hc⟩ | ⟨content, tr1, f, d1, tr2, h1, h2, hc⟩
    · rw [hc]
      have hpre : ∀ ev ∈ tr1,
          (∀ f, ev ≠ .CreateFile f) ∧ (∀ c, ev ≠ .Write c) ∧ ev ≠ .Close := by
        intro ev hev
        exact no_file_call_before_writeFile w { d with Revision := 0 } [] ev
          (List.mem_append_left _ (by rw [h1]; exact hev))
      exact Or.inr ⟨e, rfl, Or.inl ⟨(early tr1 hpre).1, (early tr1 hpre).2,
        Or.inr (Or.inl (by rw [h1]))⟩⟩
    · rw [hc]
      have hpre : ∀ ev ∈ tr1 ++ tr2,
          (∀ f, ev ≠ .CreateFile f) ∧ (∀ c, ev ≠ .Write c) ∧ ev ≠ .Close := by
        intro ev hev
        exact no_file_call_before_writeFile w { d with Revision := 0 } content ev
          (by rw [h1, h2]; exact hev)
      have horigin := newFileDoc_error w { d with Revision := 0 } content e (by rw [h2])
      refine Or.inr ⟨e, rfl, Or.inl ⟨(early _ hpre).1, (early _ hpre).2,
        Or.inr (Or.inr ⟨content, by rw [h1], ?_⟩)⟩⟩
      rcases horigin with ho | ho
      · exact Or.inl ho
      · exact Or.inr (Or.inl ho)
    · rw [hc]
      have hpre : ∀ ev ∈ tr1 ++ tr2,
          (∀ f, ev ≠ .CreateFile f) ∧ (∀ c, ev ≠ .Write c) ∧ ev ≠ .Close := by
        intro ev hev
        exact no_file_call_before_writeFile w { d with Revision := 0 } content ev
          (by rw [h1, h2]; exact hev)
      cases hcf : w.CreateFile f with
      | some e =>
        have hw : writeFile w f content = (some e, [.CreateFile f]) := by
          simp [writeFile, hcf]
        rw [hw]
        refine Or.inr ⟨e, rfl, Or.inl ⟨?_, ?_,
          Or.inr (Or.inr ⟨content, by rw [h1], Or.inr (Or.inr ⟨f, by rw [h2], hcf⟩)⟩)⟩⟩
        · apply handleCreated_false
          intro ev hev f1 hf1
          simp only [List.cons_append, List.mem_cons, List.mem_append, List.mem_singleton,
            List.not_mem_nil, or_false] at hev
          rcases hev with hev | (hev | hev) | hev
          · rw [hev] at hf1; cases hf1
          · exact absurd hf1 ((hpre ev (List.mem_append.2 hev)).1 f1)
          · rw [hev] at hf1
            injection hf1 with hf1
            rw [← hf1, hcf]
            simp
          · rw [hev] at hf1; cases hf1
        · apply writePerformed_false
          intro ev hev c hc1
          simp only [List.cons_append, List.mem_cons, List.mem_append, List.mem_singleton,
            List.not_mem_nil, or_false] at hev
          rcases hev with hev | (hev | hev) | hev
          · rw [hev] at hc1; cases hc1
          · exact absurd hc1 ((hpre ev (List.mem_append.2 hev)).2.1 c)
          · rw [hev] at hc1; cases hc1
          · rw [hev] at hc1; cases hc1
      | none =>
        have htr : (writeFile w f content).2 = [.CreateFile f, .Write content, .Close] := by
          rw [writeFile_trace, if_pos hcf]
        have hh : handleCreated w
            (.Lock :: (tr1 ++ tr2 ++ (writeFile w f content).2) ++ [.Unlock]) = true := by
          unfold handleCreated
          rw [List.any_eq_true]
          exact ⟨.CreateFile f, by simp [htr], by simp [hcf]⟩
        have hpin : ∀ c, Event.Write c ∈
            (.Lock :: (tr1 ++ tr2 ++ (writeFile w f content).2) ++ [.Unlock]) →
            c = content := by
          intro c hmem
          rw [htr] at hmem
          simp only [List.cons_append, List.mem_cons, List.mem_append, List.mem_singleton,
            List.not_mem_nil, or_false] at hmem
          rcases hmem with hm | ((hm | hm) | hm | hm | hm) | hm
          · cases hm
          · exact absurd rfl ((hpre _ (List.mem_append_left _ hm)).2.1 c)
          · exact absurd rfl ((hpre _ (List.mem_append_right _ hm)).2.1 c)
          · cases hm
          · injection hm
          · cases hm
          · cases hm
        cases hres : (writeFile w f content).1 with
        | none => exact Or.inl ⟨f, by simp [hres]⟩
        | some e =>
          refine Or.inr ⟨e, by simp [hres], Or.inr ⟨content, f, by rw [h1], by rw [h2], hcf,
            by rw [h1, h2, htr], hh, hpin, ?_⟩⟩
          unfold writeFile at hres
          simp only [hcf] at hres
          cases hwr : w.Write content with
          | some e1 =>
            left
            simp [hwr] at hres
            rw [hres]
          | none =>
            right
            simp [hwr] at hres
            exact ⟨rfl, hres.2⟩

/-- C2, refuted as stated: a document with the schema `sampleSchema` is created
in the folder `d1`; every call succeeds except `Close`.  `Create` returns the
error of `Close` and no file record, although `CreateFile` returned a handle
and the initial content `doc` was passed to `Write`, which succeeded. -/
theorem Create_close_error_after_write :
    ((sampleDoc "A/B" "d1" []).getInitialContent
        { sampleWorld with Close := some (.failure "close") }).1 = .ok [100, 111, 99] ∧
      ((sampleDoc "A/B" "d1" []).Create
        { sampleWorld with Close := some (.failure "close") }).1 =
        .error (.failure "close") ∧
      handleCreated { sampleWorld with Close := some (.failure "close") }
        ((sampleDoc "A/B" "d1" []).Create
          { sampleWorld with Close := some (.failure "close") }).2.2 = true ∧
      writePerformed ((sampleDoc "A/B" "d1" []).Create
          { sampleWorld with Close := some (.failure "close") }).2.2 = true ∧
      Event.Write [100, 111, 99] ∈ ((sampleDoc "A/B" "d1" []).Create
          { sampleWorld with Close := some (.failure "close") }).2.2 ∧
      ({ sampleWorld with Close := some (.failure "close") } : World).Write [100, 111, 99] =
        none := by
  refine ⟨rfl, rfl, ?_, ?_, ?_, rfl⟩ <;> decide

/-- C4, as the code has it: after a successful `Create` the `Content` field of
the document is the one it had before the call, the metadata entry `content`
of the returned file record is that prior `Content`, and the bytes passed to
`Write` are the initial content produced from the schema, whose length is the
size of the file record. -/
theorem Create_keeps_content (w : World) (d : Document) (f : FileDoc) (d1 : Document)
    (tr : List Event) (h : d.Create w = (.ok f, d1, tr)) :
    d1.Content = d.Content ∧
      f.Metadata.lookup "content" = some (.raw d.Content) ∧
      ∃ content, (d.getInitialContent w).1 = .ok content ∧
        Event.Write content ∈ tr ∧ f.ByteSize = (content.length : Int) := by
  cases hl : w.Lock with
  | some e =>
    rw [Create_of_lock_failed w d e hl] at h
    simp at h
  | none =>
    rw [Create_of_locked w d hl] at h
    rcases createLocked_cases w d with ⟨e, tr1, h1, hc⟩ |
      ⟨content, tr1, e, d2, tr2, h1, h2, hc⟩ | ⟨content, tr1, f1, d2, tr2, h1, h2, hc⟩
    · rw [hc] at h; simp at h
    · rw [hc] at h; simp at h
    · rw [hc] at h
      obtain ⟨dirID, -, hd2, -, -, hsize, hmeta⟩ :=
        newFileDoc_ok w { d with Revision := 0 } content f1 d2 tr2 h2
      have hcont : d2.Content = d.Content := by
        rw [hd2, filename_Content]
      cases hw : (writeFile w f1 content).1 with
      | some e => simp [hw] at h
      | none =>
        have hcf : w.CreateFile f1 = none := writeFile_none_CreateFile w f1 content hw
        have htr : (writeFile w f1 content).2 = [.CreateFile f1, .Write content, .Close] := by
          rw [writeFile_trace, if_pos hcf]
        simp only [hw, htr] at h
        injection h with hf h
        injection hf with hf
        injection h with hd htr2
        subst hf hd htr2
        refine ⟨hcont, ?_, content, ?_, ?_, hsize⟩
        · rw [hmeta]
          simp [Document.metadata, List.lookup, filename_Content]
        · rw [← getInitialContent_congr w d { d with Revision := 0 } rfl, h1]
        · simp

/-- C4 at a sample: a document with the schema `sampleSchema` and the prior
content `[1, 2]`, created in the folder `d1` with every call succeeding. -/
theorem Create_keeps_content_sample :
    ((sampleDoc "A/B" "d1" [1, 2]).Create sampleWorld).2.1.Content = [1, 2] ∧
      (∃ f d1 tr, (sampleDoc "A/B" "d1" [1, 2]).Create sampleWorld = (.ok f, d1, tr) ∧
        f.Metadata.lookup "content" = some (.raw [1, 2])) :=
  ⟨(Create_keeps_content sampleWorld (sampleDoc "A/B" "d1" [1, 2]) _ _ _ rfl).1,
    _, _, _, rfl,
    (Create_keeps_content sampleWorld (sampleDoc "A/B" "d1" [1, 2]) _ _ _ rfl).2.1⟩

/-- C4, refuted as stated: a document with the schema `sampleSchema` and an
empty `Content` is created in the folder `d1`, every call succeeding; the
initial content is `doc`.  `Create` returns a file record, and after the call
the `Content` of the document is still empty, and so is the metadata entry
`content` of the file record, while the bytes written are `doc`. -/
theorem Create_content_not_populated :
    ((sampleDoc "A/B" "d1" []).getInitialContent sampleWorld).1 = .ok [100, 111, 99] ∧
      ((sampleDoc "A/B" "d1" []).Create sampleWorld).2.1.Content ≠ [100, 111, 99] ∧
      ((sampleDoc "A/B" "d1" []).Create sampleWorld).1.toOption.map
          (fun f => f.Metadata.lookup "content") = some (some (.raw [])) ∧
      Event.Write [100, 111, 99] ∈ ((sampleDoc "A/B" "d1" []).Create sampleWorld).2.2 := by
  refine ⟨rfl, ?_, ?_, ?_⟩ <;> decide

/-! ## The notes folder -/

/-- C5: when the index has no row and the creation of the folder fails, a
conflict error followed by a successful lookup by path makes `ensureNotesDir`
return the folder found, with the reference added and the same identifier, and
a nil error, whatever `UpdateDirDoc` returns; an error that is not a conflict
is returned as it is, with neither the lookup nor the update. -/
theorem ensureNotesDir_conflict (w : World) (res : ViewResponse) (dir0 dir1 : DirDoc)
    (err : Error) (hview : w.ExecView (notesRequest w) = .ok res) (hrows : res.Rows = [])
    (hnew : w.NewDirDocWithPath (w.Translate "Tree Notes") w.RootDirID "/" = .ok dir0)
    (hcreate : w.CreateDir (preparedNotesDir w dir0) = (dir1, some err)) :
    (w.IsConflictError err = true → ∀ dir2, w.DirByPath dir1.Fullpath = .ok dir2 →
        ∀ u : DirDoc → DirDoc → Option Error,
          ensureNotesDir { w with UpdateDirDoc := u } =
            (.ok (dir2.AddReferencedBy (notesRef w)),
              [.ExecView (notesRequest w), .CreateDir (preparedNotesDir w dir0),
               .DirByPath dir1.Fullpath,
               .UpdateDirDoc dir2 (dir2.AddReferencedBy (notesRef w))]) ∧
          (dir2.AddReferencedBy (notesRef w)).ID = dir2.ID) ∧
      (w.IsConflictError err = false →
        ensureNotesDir w =
          (.error err, [.ExecView (notesRequest w), .CreateDir (preparedNotesDir w dir0)])) := by
  constructor
  · intro hconf dir2 hpath u
    refine ⟨?_, rfl⟩
    have hview1 : w.ExecView (notesRequest { w with UpdateDirDoc := u }) = .ok res := hview
    have hcreate1 : w.CreateDir
        { dir0.AddReferencedBy (notesRef { w with UpdateDirDoc := u }) with
          CozyMetadata := some (NewCozyMetadata (w.PageURL "/")) } = (dir1, some err) := hcreate
    simp only [ensureNotesDir, hview1, hrows, hnew, hcreate1, hconf, hpath]
    rfl
  · intro hconf
    have hcreate1 : w.CreateDir
        { dir0.AddReferencedBy (notesRef w) with
          CozyMetadata := some (NewCozyMetadata (w.PageURL "/")) } = (dir1, some err) := hcreate
    simp only [ensureNotesDir, hview, hrows, hnew, hcreate1, hconf]
    rfl

/-- C5 at a sample: the creation of the folder conflicts, the lookup by path
finds the folder `other-dir`, and the update fails. -/
theorem ensureNotesDir_conflict_sample :
    (ensureNotesDir { sampleWorld with
        CreateDir := fun dir => (dir, some (.couch 409)),
        UpdateDirDoc := fun _ _ => some (.failure "update") }).1.toOption.map DirDoc.ID =
      some "other-dir" := by
  have h := (ensureNotesDir_conflict
    { sampleWorld with CreateDir := fun dir => (dir, some (.couch 409)) }
    { Rows := [] } _ _ (.couch 409) rfl rfl rfl rfl).1 rfl _ rfl
    (fun _ _ => some (.failure "update"))
  rw [show ({ sampleWorld with
        CreateDir := fun dir => (dir, some (.couch 409)),
        UpdateDirDoc := fun _ _ => some (.failure "update") } : World) =
      { ({ sampleWorld with CreateDir := fun dir => (dir, some (.couch 409)) } : World) with
        UpdateDirDoc := fun _ _ => some (.failure "update") } from rfl, h.1]
  rfl

end Note
